import Mathlib

/-!
Verification of the Allusion search-criteria core and related helpers.

The operator families and the shape of the search-criteria union are
translated from the repository source (the SearchCriteria module).  The
construction check, the tag graph, the criterion evaluator and the query
combinator are not part of the given sources; they are modelled from the
specification text and marked as such on each definition.
-/

/-- Identifier type used for tags and files (the source stores ids as strings). -/
def ID := String

instance : DecidableEq ID := fun a b => (inferInstance : DecidableEq String) a b

/-- Translated from the source: the `NumberOperators` constant array. -/
def NumberOperators : List String :=
  [ "equals", "notEqual", "smallerThan", "smallerThanOrEquals",
    "greaterThan", "greaterThanOrEquals" ]

/-- Translated from the source: the `StringOperators` constant array. -/
def StringOperators : List String :=
  [ "equalsIgnoreCase", "equals", "notEqual", "startsWithIgnoreCase",
    "startsWith", "notStartsWith", "contains", "notContains" ]

/-- Translated from the source: the `BinaryOperators` constant array. -/
def BinaryOperators : List String :=
  [ "equals", "notEqual" ]

/-- Translated from the source: the `TagOperators` constant array. -/
def TagOperators : List String :=
  [ "contains", "notContains", "containsRecursively", "containsNotRecursively" ]

/-- Operand payload of a criterion: one case per value-type family of the
source union `SearchCriteria` (tag-id list, string, number, date).  A date
operand is kept as its integer timestamp. -/
inductive CriterionValue
  | tags (ids : List String)
  | str (s : String)
  | num (n : Int)
  | date (timestamp : Int)
deriving DecidableEq, Repr

/-- Translated from the source interfaces `IBaseSearchCriteria` and its four
variants: a criterion holds a field key, a declared value type, an operator
and an operand payload. -/
structure SearchCriteria where
  key : String
  valueType : String
  operator : String
  value : CriterionValue
deriving DecidableEq, Repr

/-- Translated from the source type constraints: a criterion inhabits the
source union `SearchCriteria` exactly when its operator belongs to the
operator family matching the shape of its operand (tag operand with a tag
operator, string operand with a string operator, number or date operand
with a number operator). -/
def wellFormed (c : SearchCriteria) : Bool :=
  match c.value with
  | .tags _ => decide (c.operator ∈ TagOperators)
  | .str _ => decide (c.operator ∈ StringOperators)
  | .num _ => decide (c.operator ∈ NumberOperators)
  | .date _ => decide (c.operator ∈ NumberOperators)

/-- Modelled from the spec: the error raised when a criterion is built with
an operator/value-type mismatch or an operand of the wrong shape. -/
inductive ConstructionError
  | mismatch
deriving DecidableEq, Repr

/-- Modelled from the spec: the operator set declared for each value-type
family (`array` is the tag family; `date` shares the ordering operators of
`number`). -/
def familyOf (valueType : String) : List String :=
  if valueType = "array" then TagOperators
  else if valueType = "string" then StringOperators
  else if valueType = "number" then NumberOperators
  else if valueType = "date" then NumberOperators
  else []

/-- Modelled from the spec: whether an operand payload has the shape
required by the declared value type. -/
def shapeMatches (valueType : String) (v : CriterionValue) : Bool :=
  match v with
  | .tags _ => valueType == "array"
  | .str _ => valueType == "string"
  | .num _ => valueType == "number"
  | .date _ => valueType == "date"

/-- Modelled from the spec: constructing a criterion checks, synchronously,
that the operator is a member of the operator set declared for the value
type and that the operand has the right shape; a mismatched combination is
rejected with a `ConstructionError` and yields no criterion value. -/
def mkCriterion (key valueType op : String) (v : CriterionValue) :
    Except ConstructionError SearchCriteria :=
  if decide (op ∈ familyOf valueType) && shapeMatches valueType v then
    .ok ⟨key, valueType, op, v⟩
  else
    .error .mismatch

/-- Modelled from the spec: the tag graph owns the parent-to-child edges; a
graph lists its tag ids and maps each tag id to its list of child ids. -/
structure TagGraph where
  nodes : List String
  children : String → List String

/-- Modelled from the spec: one step of the descendant traversal with a
visited set — pop a frontier id, skip it when already visited, otherwise
record it and push its children.  The fuel argument only bounds the number
of steps; `descendants` passes enough fuel for any graph whose reachable
tags are listed in `nodes`. -/
def traverse (g : TagGraph) : Nat → List String → List String → List String
  | _, [], visited => visited
  | 0, _, visited => visited
  | fuel + 1, x :: stack, visited =>
    if visited.contains x then traverse g fuel stack visited
    else traverse g fuel (g.children x ++ stack) (x :: visited)

/-- Modelled from the spec: `descendants(tagId)` is the transitive closure
of children reachable from `tagId`, excluding `tagId` itself, computed by a
traversal that never visits a node twice. -/
def descendants (g : TagGraph) (id : String) : List String :=
  let fuel := g.nodes.length + (g.nodes.flatMap g.children).length +
    (g.children id).length + 1
  (traverse g fuel (g.children id) []).filter (fun x => x != id)

/-- Modelled from the spec: the file attributes the evaluator reads — the
assigned tag-id set plus scalar, string and date fields addressed by a
field key.  Dates are integer timestamps. -/
structure FileDTO where
  id : String
  name : String
  absolutePath : String
  size : Int
  dateAdded : Int
  dateModified : Int
  tags : List String
deriving DecidableEq, Repr

/-- Modelled from the spec: read the string attribute addressed by a key. -/
def getStrVal (f : FileDTO) (key : String) : String :=
  if key = "name" then f.name
  else if key = "absolutePath" then f.absolutePath
  else ""

/-- Modelled from the spec: read the numeric attribute addressed by a key. -/
def getNumVal (f : FileDTO) (_key : String) : Int := f.size

/-- Modelled from the spec: read the date attribute addressed by a key. -/
def getDateVal (f : FileDTO) (key : String) : Int :=
  if key = "dateAdded" then f.dateAdded else f.dateModified

/-- Modelled from the spec: non-recursive tag containment — true when the
assigned-tag set of the file intersects the operand tag-id set. -/
def tagContains (operand fileTags : List String) : Bool :=
  operand.any (fun o => decide (o ∈ fileTags))

/-- Modelled from the spec: recursive tag containment — true when the
assigned-tag set of the file intersects the union, over each operand id,
of that id together with its descendant closure. -/
def tagContainsRec (g : TagGraph) (operand fileTags : List String) : Bool :=
  operand.any (fun o => fileTags.any (fun t => t == o || decide (t ∈ descendants g o)))

/-- Modelled from the spec: the tag-family evaluator; the negative
operators are the strict logical negation of their positive counterpart. -/
def evalTagOp (g : TagGraph) (op : String) (operand fileTags : List String) : Bool :=
  match op with
  | "contains" => tagContains operand fileTags
  | "notContains" => !tagContains operand fileTags
  | "containsRecursively" => tagContainsRec g operand fileTags
  | "containsNotRecursively" => !tagContainsRec g operand fileTags
  | _ => false

/-- Modelled from the spec: the string-family evaluator; case folding is
applied only by the IgnoreCase operators, and the negative operators are
the strict logical negation of their positive counterpart. -/
def evalStrOp (op : String) (fileVal operand : String) : Bool :=
  match op with
  | "equalsIgnoreCase" => fileVal.toLower == operand.toLower
  | "equals" => fileVal == operand
  | "notEqual" => !(fileVal == operand)
  | "startsWithIgnoreCase" => (fileVal.toLower).startsWith (operand.toLower)
  | "startsWith" => fileVal.startsWith operand
  | "notStartsWith" => !(fileVal.startsWith operand)
  | "contains" => decide (List.IsInfix operand.toList fileVal.toList)
  | "notContains" => !decide (List.IsInfix operand.toList fileVal.toList)
  | _ => false

/-- Modelled from the spec: the number and date family evaluator — the file
value and the operand are compared under the total order of the integers. -/
def evalNumOp (op : String) (fileVal operand : Int) : Bool :=
  match op with
  | "equals" => decide (fileVal = operand)
  | "notEqual" => !decide (fileVal = operand)
  | "smallerThan" => decide (fileVal < operand)
  | "smallerThanOrEquals" => decide (fileVal ≤ operand)
  | "greaterThan" => decide (operand < fileVal)
  | "greaterThanOrEquals" => decide (operand ≤ fileVal)
  | _ => false

/-- Modelled from the spec: `evaluate(criterion, file, tagGraph)` — a pure
function dispatching on the value-type family of the criterion. -/
def evaluate (g : TagGraph) (c : SearchCriteria) (f : FileDTO) : Bool :=
  match c.value with
  | .tags ids => evalTagOp g c.operator ids f.tags
  | .str s => evalStrOp c.operator (getStrVal f c.key) s
  | .num n => evalNumOp c.operator (getNumVal f c.key) n
  | .date ts => evalNumOp c.operator (getDateVal f c.key) ts

/-- Modelled from the spec: the two combination modes of a query. -/
inductive QueryMode
  | matchAll
  | matchAny
deriving DecidableEq, Repr

/-- Modelled from the spec: a query is an ordered sequence of criteria plus
a combination mode. -/
structure Query where
  criteria : List SearchCriteria
  mode : QueryMode

/-- Modelled from the spec: a query matches a file when all criteria hold
(`matchAll`, logical AND) or when at least one criterion holds
(`matchAny`, logical OR). -/
def Query.matches (q : Query) (g : TagGraph) (f : FileDTO) : Bool :=
  match q.mode with
  | .matchAll => q.criteria.all (fun c => evaluate g c f)
  | .matchAny => q.criteria.any (fun c => evaluate g c f)

/-! ## The tag counter of the FileTag component

Translated from the source function `countFileTags`.  A JavaScript `Map` is
modelled as an association list with the `Map` update discipline: setting
an existing key overwrites its value in place (keeping its position),
setting a fresh key appends it at the end, and iteration follows that
insertion order. -/

/-- Translated from the source: `Map.get` on the association-list model. -/
def mapGet (m : List (String × Nat)) (k : String) : Option Nat :=
  match m with
  | [] => none
  | (k2, v) :: rest => if k2 = k then some v else mapGet rest k

/-- Translated from the source: `Map.set` on the association-list model. -/
def mapSet (m : List (String × Nat)) (k : String) (v : Nat) : List (String × Nat) :=
  match m with
  | [] => [(k, v)]
  | (k2, v2) :: rest => if k2 = k then (k, v) :: rest else (k2, v2) :: mapSet rest k v

/-- A file as `countFileTags` sees it: an id and the assigned tag list; the
source iterates a set of tags, so a tag appears at most once per file. -/
structure ClientFile where
  id : String
  tags : List String
deriving DecidableEq, Repr

/-- Translated from the source: the inner loop of `countFileTags` — for each
tag of one file, bump its count, starting a fresh tag at one. -/
def bumpTag (c : List (String × Nat)) (tag : String) : List (String × Nat) :=
  match mapGet c tag with
  | some count => mapSet c tag (count + 1)
  | none => mapSet c tag 1

/-- Translated from the source: the outer loop of `countFileTags` folds the
inner loop over every file of the collection. -/
def addTagCounts (counter : List (String × Nat)) (file : ClientFile) :
    List (String × Nat) :=
  file.tags.foldl bumpTag counter

/-- Translated from the source: the `counter` map built by `countFileTags`. -/
def countFileTagsCounter (files : List ClientFile) : List (String × Nat) :=
  files.foldl addTagCounts []

/-- The comparator of `countFileTags` keeps entry `a` before entry `b`
exactly when the count of `b` does not exceed the count of `a`; ties keep
the original order (JavaScript `Array.sort` is stable). -/
def countLe (a b : String × Nat) : Bool :=
  decide (b.2 ≤ a.2)

/-- Translated from the source: the `sortedTags` list returned by
`countFileTags` — the counter entries sorted by descending count, keys
only. -/
def countFileTagsSorted (files : List ClientFile) : List String :=
  ((countFileTagsCounter files).mergeSort countLe).map (fun p => p.1)

/-! ## The byte formatter of the Inspector

Translated from the source `getBytes` helper.  Sizes are modelled as exact
rationals; the float expression `Math.floor(Math.log(bytes) / Math.log(1024))`
of the positive branch is modelled as the exact base-1024 integer logarithm
of the integer part of the size, and `toFixed(2)` as exact rounding to two
decimals. -/

/-- Translated from the source: the `sufixes` constant array. -/
def sufixes : List String :=
  [ "Bytes", "KB", "MB", "GB", "TB", "PB", "EB", "ZB", "YB" ]

/-- Model of `Number.prototype.toFixed(2)`: round to two decimals and print
with exactly two fractional digits. -/
def toFixed2 (q : ℚ) : String :=
  let n : Int := ⌊q * 100 + 1 / 2⌋
  let ip := n / 100
  let fp := (n % 100).natAbs
  toString ip ++ "." ++ (if fp < 10 then "0" ++ toString fp else toString fp)

/-- Translated from the source: `getBytes` — a non-positive size prints as
`0 Bytes`; a positive size is scaled by the power of 1024 picked by the
integer logarithm and suffixed accordingly (an out-of-range index prints
the JavaScript `undefined`). -/
def getBytes (bytes : ℚ) : String :=
  if bytes ≤ 0 then "0 Bytes"
  else
    let i := Nat.log 1024 ⌊bytes⌋₊
    toFixed2 (bytes / 1024 ^ i) ++ " " ++ sufixes.getD i "undefined"

/-! ## The column layout of the Gallery

Translated from the source `get_column_layout`.  JavaScript numbers are
modelled as exact rationals extended with the two infinities and NaN, which
is enough to capture the division-by-zero guard of the function. -/

/-- A JavaScript number: a finite value (modelled exactly as a rational),
an infinity, or NaN. -/
inductive JSNum
  | num (q : ℚ)
  | posInf
  | negInf
  | nan
deriving DecidableEq

/-- JavaScript division: a nonzero finite value divided by zero gives a
signed infinity, zero divided by zero gives NaN, and NaN propagates. -/
def jsDiv : JSNum → JSNum → JSNum
  | .num a, .num b =>
    if b = 0 then
      if a = 0 then .nan else if 0 < a then .posInf else .negInf
    else .num (a / b)
  | .num _, .posInf => .num 0
  | .num _, .negInf => .num 0
  | .posInf, .num b => if 0 ≤ b then .posInf else .negInf
  | .negInf, .num b => if 0 ≤ b then .negInf else .posInf
  | _, _ => .nan

/-- `Math.trunc`: drop the fractional part, rounding toward zero; the
infinities and NaN pass through. -/
def jsTrunc : JSNum → JSNum
  | .num q => .num (if q < 0 then -(⌊-q⌋ : Int) else (⌊q⌋ : Int))
  | .posInf => .posInf
  | .negInf => .negInf
  | .nan => .nan

/-- `Number.isNaN`. -/
def jsIsNaN : JSNum → Bool
  | .nan => true
  | _ => false

/-- `Number.isFinite`. -/
def jsIsFinite : JSNum → Bool
  | .num _ => true
  | _ => false

/-- `Math.min`: NaN propagates, otherwise the usual minimum with the
infinities at the extremes. -/
def jsMin : JSNum → JSNum → JSNum
  | .nan, _ => .nan
  | _, .nan => .nan
  | .num a, .num b => .num (min a b)
  | .num a, .posInf => .num a
  | .posInf, .num b => .num b
  | .num _, .negInf => .negInf
  | .negInf, .num _ => .negInf
  | .posInf, .posInf => .posInf
  | .posInf, .negInf => .negInf
  | .negInf, .posInf => .negInf
  | .negInf, .negInf => .negInf

/-- Translated from the source: `get_column_layout` — the column count is
the truncated ratio of width to minimum cell size; the cell size is the
truncated ratio of width to column count, replaced by the minimum size
when that division produced NaN or an infinity, and finally capped at the
maximum size. -/
def get_column_layout (width minSize maxSize : JSNum) : JSNum × JSNum :=
  let numColumns := jsTrunc (jsDiv width minSize)
  let cellSize0 := jsTrunc (jsDiv width numColumns)
  let cellSize1 := if jsIsNaN cellSize0 || !jsIsFinite cellSize0 then minSize else cellSize0
  (numColumns, jsMin cellSize1 maxSize)

/-! ## Spec-side operator sets and demonstration fixtures -/

/-- The operator set the spec lists for tag criteria, written from the spec
text for comparison with the source constant. -/
def specTagOperators : List String :=
  [ "contains", "notContains", "containsRecursively", "containsNotRecursively" ]

/-- The operator set the spec lists for string criteria, written from the
spec text for comparison with the source constant. -/
def specStringOperators : List String :=
  [ "equalsIgnoreCase", "equals", "notEqual", "startsWithIgnoreCase",
    "startsWith", "notStartsWith", "contains", "notContains" ]

/-- The operator set the spec lists for number criteria, written from the
spec text for comparison with the source constant. -/
def specNumberOperators : List String :=
  [ "equals", "notEqual", "smallerThan", "smallerThanOrEquals",
    "greaterThan", "greaterThanOrEquals" ]

/-- A small tag graph for concrete checks: Animal has child Dog, Dog has
child Labrador, Cat is isolated. -/
def gDemo : TagGraph :=
  ⟨[ "Animal", "Dog", "Labrador", "Cat" ],
   fun id => if id = "Animal" then ["Dog"] else if id = "Dog" then ["Labrador"] else []⟩

/-- A file tagged only with Labrador. -/
def fLab : FileDTO :=
  ⟨"f1", "vacation.jpg", "/pics/vacation.jpg", 2000, 10, 20, ["Labrador"]⟩

/-- A demonstration criterion for the tag family. -/
def cTagDemo : SearchCriteria :=
  ⟨"tags", "array", "containsRecursively", .tags ["Animal"]⟩

/-! ## Claims about the criteria model -/

/-- Claim C1: for each criterion value-type family the set of legal
operators is exactly the set the spec lists — the tag, string and number
operator constants coincide with the spec sets, and every well-formed
criterion of a family carries an operator of that family. -/
theorem C1_operator_sets_exact :
    (∀ s : String, s ∈ TagOperators ↔ s ∈ specTagOperators) ∧
    (∀ s : String, s ∈ StringOperators ↔ s ∈ specStringOperators) ∧
    (∀ s : String, s ∈ NumberOperators ↔ s ∈ specNumberOperators) ∧
    (∀ c : SearchCriteria, wellFormed c = true →
      (∀ ids, c.value = .tags ids → c.operator ∈ TagOperators) ∧
      (∀ s, c.value = .str s → c.operator ∈ StringOperators) ∧
      (∀ n, c.value = .num n → c.operator ∈ NumberOperators)) := by
  refine ⟨fun s => Iff.rfl, fun s => Iff.rfl, fun s => Iff.rfl, ?_⟩
  rintro ⟨k, vt, op, v⟩ h
  cases v with
  | tags ids =>
    exact ⟨fun _ _ => of_decide_eq_true h,
      fun s hv => CriterionValue.noConfusion hv,
      fun n hv => CriterionValue.noConfusion hv⟩
  | str s =>
    exact ⟨fun _ hv => CriterionValue.noConfusion hv,
      fun _ _ => of_decide_eq_true h,
      fun n hv => CriterionValue.noConfusion hv⟩
  | num n =>
    exact ⟨fun _ hv => CriterionValue.noConfusion hv,
      fun s hv => CriterionValue.noConfusion hv,
      fun _ _ => of_decide_eq_true h⟩
  | date ts =>
    exact ⟨fun _ hv => CriterionValue.noConfusion hv,
      fun s hv => CriterionValue.noConfusion hv,
      fun n hv => CriterionValue.noConfusion hv⟩

/-- Concrete instance of C1: a well-formed tag criterion carries a tag
operator. -/
theorem C1_operator_sets_exact_witness :
    wellFormed cTagDemo = true ∧ cTagDemo.operator ∈ TagOperators :=
  ⟨by decide, (C1_operator_sets_exact.2.2.2 cTagDemo (by decide)).1 ["Animal"] rfl⟩

/-- Claim C2: constructing a criterion whose operator is outside the
operator set of its value-type family, or whose operand has the wrong
shape, fails synchronously with a `ConstructionError` and yields no
criterion; every criterion a successful construction yields is well formed
and carries exactly the requested fields, so no mismatched criterion
reaches evaluation. -/
theorem C2_construction_rejects_mismatch (key vt op : String) (v : CriterionValue) :
    (¬ (op ∈ familyOf vt ∧ shapeMatches vt v = true) →
      mkCriterion key vt op v = .error .mismatch) ∧
    (∀ c, mkCriterion key vt op v = .ok c →
      wellFormed c = true ∧ c.key = key ∧ c.valueType = vt ∧
        c.operator = op ∧ c.value = v) := by
  unfold mkCriterion
  by_cases hcond : (decide (op ∈ familyOf vt) && shapeMatches vt v) = true
  · rw [if_pos hcond]
    obtain ⟨h1, h2⟩ := Bool.and_eq_true_iff.mp hcond
    have hmem : op ∈ familyOf vt := of_decide_eq_true h1
    refine ⟨fun h => absurd ⟨hmem, h2⟩ h, ?_⟩
    rintro c hc
    cases hc
    refine ⟨?_, rfl, rfl, rfl, rfl⟩
    cases v with
    | tags ids =>
      have hvt : vt = "array" := by simpa [shapeMatches] using h2
      subst hvt
      simpa [wellFormed, familyOf] using hmem
    | str s =>
      have hvt : vt = "string" := by simpa [shapeMatches] using h2
      subst hvt
      simpa [wellFormed, familyOf] using hmem
    | num n =>
      have hvt : vt = "number" := by simpa [shapeMatches] using h2
      subst hvt
      simpa [wellFormed, familyOf] using hmem
    | date ts =>
      have hvt : vt = "date" := by simpa [shapeMatches] using h2
      subst hvt
      simpa [wellFormed, familyOf] using hmem
  · rw [if_neg hcond]
    exact ⟨fun _ => rfl, fun c hc => Except.noConfusion hc⟩

/-- Concrete instance of C2: a string operand on the number value type is
rejected with a `ConstructionError`, while a matching combination yields a
well-formed criterion with exactly the requested fields. -/
theorem C2_construction_rejects_mismatch_witness :
    mkCriterion "size" "number" "equals" (.str "big") = .error .mismatch ∧
    (wellFormed (⟨"name", "string", "startsWith", .str "vac"⟩ : SearchCriteria) = true ∧
      (⟨"name", "string", "startsWith", .str "vac"⟩ : SearchCriteria).key = "name" ∧
      (⟨"name", "string", "startsWith", .str "vac"⟩ : SearchCriteria).valueType = "string" ∧
      (⟨"name", "string", "startsWith", .str "vac"⟩ : SearchCriteria).operator = "startsWith" ∧
      (⟨"name", "string", "startsWith", .str "vac"⟩ : SearchCriteria).value = .str "vac") :=
  ⟨(C2_construction_rejects_mismatch "size" "number" "equals" (.str "big")).1 (by decide),
   (C2_construction_rejects_mismatch "name" "string" "startsWith" (.str "vac")).2
     ⟨"name", "string", "startsWith", .str "vac"⟩ rfl⟩

/-- Claim C3: a date criterion carries a single integer timestamp operand,
its legal operator set is exactly the ordering-operator set of the number
family, and its evaluation compares the timestamps under the total order
of the integers. -/
theorem C3_date_same_operators_as_number :
    familyOf "date" = NumberOperators ∧
    (∀ s : String, s ∈ familyOf "date" ↔ s ∈ specNumberOperators) ∧
    (∀ (g : TagGraph) (f : FileDTO) (key op : String) (ts : Int),
      evaluate g ⟨key, "date", op, .date ts⟩ f = evalNumOp op (getDateVal f key) ts) ∧
    (∀ v o : Int,
      evalNumOp "equals" v o = decide (v = o) ∧
      evalNumOp "notEqual" v o = !decide (v = o) ∧
      evalNumOp "smallerThan" v o = decide (v < o) ∧
      evalNumOp "smallerThanOrEquals" v o = decide (v ≤ o) ∧
      evalNumOp "greaterThan" v o = decide (o < v) ∧
      evalNumOp "greaterThanOrEquals" v o = decide (o ≤ v)) :=
  ⟨rfl, fun _ => Iff.rfl, fun _ _ _ _ _ => rfl,
   fun _ _ => ⟨rfl, rfl, rfl, rfl, rfl, rfl⟩⟩

/-- Claim C5: a query with zero criteria matches every file under
`matchAll` and no file under `matchAny`. -/
theorem C5_empty_query_asymmetry (g : TagGraph) (f : FileDTO)
    (cs : List SearchCriteria) (h : cs = []) :
    (Query.mk cs .matchAll).matches g f = true ∧
    (Query.mk cs .matchAny).matches g f = false := by
  subst h
  exact ⟨rfl, rfl⟩

/-- Concrete instance of C5 on the demonstration graph and file. -/
theorem C5_empty_query_asymmetry_witness :
    (Query.mk [] .matchAll).matches gDemo fLab = true ∧
    (Query.mk [] .matchAny).matches gDemo fLab = false :=
  C5_empty_query_asymmetry gDemo fLab [] rfl

/-- Claim C6: each negative operator evaluates to the strict logical
negation of its positive counterpart on every criterion and file — across
the tag, string, number and date families — so exactly one of each pair
holds. -/
theorem C6_negation_duality (g : TagGraph) (f : FileDTO) (key : String)
    (ids : List String) (s : String) (n ts : Int) :
    evaluate g ⟨key, "array", "notContains", .tags ids⟩ f
      = !evaluate g ⟨key, "array", "contains", .tags ids⟩ f ∧
    evaluate g ⟨key, "array", "containsNotRecursively", .tags ids⟩ f
      = !evaluate g ⟨key, "array", "containsRecursively", .tags ids⟩ f ∧
    evaluate g ⟨key, "string", "notEqual", .str s⟩ f
      = !evaluate g ⟨key, "string", "equals", .str s⟩ f ∧
    evaluate g ⟨key, "string", "notStartsWith", .str s⟩ f
      = !evaluate g ⟨key, "string", "startsWith", .str s⟩ f ∧
    evaluate g ⟨key, "string", "notContains", .str s⟩ f
      = !evaluate g ⟨key, "string", "contains", .str s⟩ f ∧
    evaluate g ⟨key, "number", "notEqual", .num n⟩ f
      = !evaluate g ⟨key, "number", "equals", .num n⟩ f ∧
    evaluate g ⟨key, "date", "notEqual", .date ts⟩ f
      = !evaluate g ⟨key, "date", "equals", .date ts⟩ f :=
  ⟨rfl, rfl, rfl, rfl, rfl, rfl, rfl⟩

/-- Claim C10: `getBytes` returns the string `0 Bytes` for every
non-positive size, without entering the logarithm-based positive branch. -/
theorem C10_getBytes_nonpositive (b : ℚ) (h : b ≤ 0) : getBytes b = "0 Bytes" := by
  unfold getBytes
  rw [if_pos h]

/-- Concrete instance of C10 at a negative size. -/
theorem C10_getBytes_nonpositive_witness :
    ((-5 : ℚ) ≤ 0) ∧ getBytes (-5) = "0 Bytes" :=
  ⟨by norm_num, C10_getBytes_nonpositive (-5) (by norm_num)⟩

/-- Claim C4: a `containsRecursively` criterion holds exactly when the
assigned-tag set of the file meets the union, over the operand ids, of the
id and its descendant closure; consequently a file tagged only with a
descendant B of A matches `containsRecursively` on A but not the
non-recursive `contains` on A. -/
theorem C4_containsRecursively_semantics (g : TagGraph) (f : FileDTO)
    (key : String) (ids : List String) :
    (evaluate g ⟨key, "array", "containsRecursively", .tags ids⟩ f = true ↔
      ∃ t ∈ f.tags, ∃ o ∈ ids, t = o ∨ t ∈ descendants g o) ∧
    (∀ A B : String, B ∈ descendants g A → f.tags = [B] →
      evaluate g ⟨key, "array", "containsRecursively", .tags [A]⟩ f = true ∧
      evaluate g ⟨key, "array", "contains", .tags [A]⟩ f = false) := by
  constructor
  · show tagContainsRec g ids f.tags = true ↔ _
    simp only [tagContainsRec, List.any_eq_true, Bool.or_eq_true, beq_iff_eq,
      decide_eq_true_eq]
    constructor
    · rintro ⟨o, ho, t, ht, hor⟩
      exact ⟨t, ht, o, ho, hor⟩
    · rintro ⟨t, ht, o, ho, hor⟩
      exact ⟨o, ho, t, ht, hor⟩
  · intro A B hB hf
    have hBA : B ≠ A := by
      simp only [descendants, List.mem_filter, bne_iff_ne, ne_eq] at hB
      exact hB.2
    constructor
    · show tagContainsRec g [A] f.tags = true
      rw [hf]
      simp [tagContainsRec, hB]
    · show tagContains [A] f.tags = false
      rw [hf]
      simp [tagContains, hBA.symm]

/-- Concrete instance of C4: Labrador is a descendant of Animal, and the
file tagged only Labrador matches `containsRecursively` on Animal but not
`contains` on Animal. -/
theorem C4_containsRecursively_semantics_witness :
    "Labrador" ∈ descendants gDemo "Animal" ∧
    evaluate gDemo ⟨"tags", "array", "containsRecursively", .tags ["Animal"]⟩ fLab = true ∧
    evaluate gDemo ⟨"tags", "array", "contains", .tags ["Animal"]⟩ fLab = false := by
  refine ⟨by decide, ?_, ?_⟩
  · exact ((C4_containsRecursively_semantics gDemo fLab "tags" ["Animal"]).2
      "Animal" "Labrador" (by decide) rfl).1
  · exact ((C4_containsRecursively_semantics gDemo fLab "tags" ["Animal"]).2
      "Animal" "Labrador" (by decide) rfl).2


/-- Claim C9: for a finite non-negative width and thumbnail bounds with
positive minimum not above the maximum, `get_column_layout` yields a
finite, non-NaN cell size capped at the maximum; in the edge case where
the width is below the minimum the column count is zero, the unguarded
truncated division by that zero yields an infinity or NaN, and the guard
falls back to the minimum size. -/
theorem C9_get_column_layout_safe (w mn mx : ℚ) (hw : 0 ≤ w) (hmn : 0 < mn)
    (hmx : mn ≤ mx) :
    (∃ c : ℚ, (get_column_layout (.num w) (.num mn) (.num mx)).2 = .num c ∧ c ≤ mx) ∧
    (w < mn →
      (get_column_layout (.num w) (.num mn) (.num mx)).1 = .num 0 ∧
      (jsTrunc (jsDiv (.num w) (.num 0)) = .posInf ∨
        jsTrunc (jsDiv (.num w) (.num 0)) = .nan) ∧
      (get_column_layout (.num w) (.num mn) (.num mx)).2 = .num mn) := by
  have hdiv1 : jsDiv (.num w) (.num mn) = .num (w / mn) := by
    simp [jsDiv, hmn.ne']
  have hq0 : 0 ≤ w / mn := div_nonneg hw hmn.le
  have htr1 : jsTrunc (jsDiv (.num w) (.num mn)) = .num ((⌊w / mn⌋ : Int) : ℚ) := by
    rw [hdiv1]
    simp [jsTrunc, not_lt.mpr hq0]
  by_cases hcase : w < mn
  · -- width below the minimum: zero columns, the guard fires
    have hfl : ⌊w / mn⌋ = 0 := by
      rw [Int.floor_eq_zero_iff]
      exact ⟨hq0, (div_lt_one hmn).mpr hcase⟩
    have hnc : jsTrunc (jsDiv (.num w) (.num mn)) = .num 0 := by
      rw [htr1, hfl]
      norm_num
    have hbad : jsTrunc (jsDiv (.num w) (.num 0)) = .posInf ∨
        jsTrunc (jsDiv (.num w) (.num 0)) = .nan := by
      rcases eq_or_lt_of_le hw with hw0 | hw0
      · right
        simp [jsDiv, ← hw0, jsTrunc]
      · left
        simp [jsDiv, hw0.ne', hw0, jsTrunc]
    have hlay : get_column_layout (.num w) (.num mn) (.num mx) = (.num 0, .num mn) := by
      rcases hbad with hb | hb <;>
        simp [get_column_layout, hnc, hb, jsIsNaN, jsIsFinite, jsMin, min_eq_left hmx]
    exact ⟨⟨mn, by rw [hlay], hmx⟩, fun _ => ⟨by rw [hlay], hbad, by rw [hlay]⟩⟩
  · -- at least one column: the division is finite and capped at the maximum
    have hle : mn ≤ w := le_of_not_lt hcase
    have hfl1 : (1 : Int) ≤ ⌊w / mn⌋ := by
      rw [Int.le_floor]
      exact_mod_cast (one_le_div hmn).mpr hle
    have hfl1q : (1 : ℚ) ≤ ((⌊w / mn⌋ : Int) : ℚ) := by exact_mod_cast hfl1
    have hncpos : (0 : ℚ) < ((⌊w / mn⌋ : Int) : ℚ) := lt_of_lt_of_le one_pos hfl1q
    have hdiv2 : jsDiv (.num w) (.num ((⌊w / mn⌋ : Int) : ℚ))
        = .num (w / ((⌊w / mn⌋ : Int) : ℚ)) := by
      simp [jsDiv, hncpos.ne']
    have hq2 : 0 ≤ w / ((⌊w / mn⌋ : Int) : ℚ) := div_nonneg hw hncpos.le
    have htr2 : jsTrunc (.num (w / ((⌊w / mn⌋ : Int) : ℚ)))
        = .num ((⌊w / ((⌊w / mn⌋ : Int) : ℚ)⌋ : Int) : ℚ) := by
      simp [jsTrunc, not_lt.mpr hq2]
    have hlay : get_column_layout (.num w) (.num mn) (.num mx)
        = (.num ((⌊w / mn⌋ : Int) : ℚ),
           .num (min ((⌊w / ((⌊w / mn⌋ : Int) : ℚ)⌋ : Int) : ℚ) mx)) := by
      simp only [get_column_layout, htr1, hdiv2, htr2]
      simp [jsIsNaN, jsIsFinite, jsMin]
    exact ⟨⟨min ((⌊w / ((⌊w / mn⌋ : Int) : ℚ)⌋ : Int) : ℚ) mx,
      by rw [hlay], min_le_right _ _⟩, fun hcon => absurd hcon hcase⟩

/-- Concrete instance of C9 in the edge case: width 100 below minimum 144
with maximum 160. -/
theorem C9_get_column_layout_safe_witness :
    (∃ c : ℚ, (get_column_layout (.num 100) (.num 144) (.num 160)).2 = .num c ∧ c ≤ 160) ∧
    ((get_column_layout (.num 100) (.num 144) (.num 160)).1 = .num 0 ∧
      (jsTrunc (jsDiv (.num 100) (.num 0)) = .posInf ∨
        jsTrunc (jsDiv (.num 100) (.num 0)) = .nan) ∧
      (get_column_layout (.num 100) (.num 144) (.num 160)).2 = .num 144) :=
  ⟨(C9_get_column_layout_safe 100 144 160 (by norm_num) (by norm_num) (by norm_num)).1,
   (C9_get_column_layout_safe 100 144 160 (by norm_num) (by norm_num) (by norm_num)).2
     (by norm_num)⟩

/-- `Map.get` after `Map.set`: the set key reads back the new value and
every other key is untouched. -/
theorem mapGet_mapSet (m : List (String × Nat)) (k k2 : String) (v : Nat) :
    mapGet (mapSet m k v) k2 = if k = k2 then some v else mapGet m k2 := by
  induction m with
  | nil => simp [mapSet, mapGet]
  | cons hd tl ih =>
    obtain ⟨k3, v3⟩ := hd
    by_cases h3 : k3 = k
    · subst h3
      by_cases h : k3 = k2 <;> simp [mapSet, mapGet, h]
    · by_cases h2 : k3 = k2
      · subst h2
        have hk : ¬ k = k3 := fun hh => h3 hh.symm
        simp [mapSet, mapGet, h3, hk]
      · simp [mapSet, mapGet, h3, h2, ih]

/-- Bumping a tag rewrites exactly that key of the counter, starting a
fresh key at one. -/
theorem mapGet_bumpTag (c : List (String × Nat)) (a t : String) :
    mapGet (bumpTag c a) t =
      if a = t then some ((mapGet c a).getD 0 + 1) else mapGet c t := by
  cases h : mapGet c a with
  | some n => simp [bumpTag, h, mapGet_mapSet]
  | none => simp [bumpTag, h, mapGet_mapSet]

/-- Folding the bump over a duplicate-free tag list adds one to exactly
the keys of that list. -/
theorem mapGet_foldl_bumpTag (l : List String) (t : String) :
    ∀ c : List (String × Nat), l.Nodup →
      mapGet (l.foldl bumpTag c) t =
        if t ∈ l then some ((mapGet c t).getD 0 + 1) else mapGet c t := by
  induction l with
  | nil => intro c _; simp
  | cons a l ih =>
    intro c hl
    obtain ⟨ha, hl2⟩ := List.nodup_cons.mp hl
    rw [List.foldl_cons, ih _ hl2]
    by_cases hat : a = t
    · subst hat
      simp [mapGet_bumpTag, ha]
    · have hta : ¬ t = a := fun hh => hat hh.symm
      simp [mapGet_bumpTag, hat, hta, List.mem_cons]

/-- Folding the per-file counting over a file list makes each key carry
exactly the number of files whose duplicate-free tag set holds it. -/
theorem mapGet_foldl_addTagCounts (fs : List ClientFile) (t : String) :
    ∀ c : List (String × Nat), (∀ f ∈ fs, f.tags.Nodup) →
      mapGet (fs.foldl addTagCounts c) t =
        if fs.countP (fun f => decide (t ∈ f.tags)) = 0 then mapGet c t
        else some ((mapGet c t).getD 0 + fs.countP (fun f => decide (t ∈ f.tags))) := by
  induction fs with
  | nil => intro c _; simp
  | cons f fs ih =>
    intro c h
    have hf : f.tags.Nodup := h f (List.mem_cons_self f fs)
    have hrest : ∀ f2 ∈ fs, f2.tags.Nodup := fun f2 hf2 => h f2 (List.mem_cons_of_mem f hf2)
    rw [List.foldl_cons, ih _ hrest, List.countP_cons]
    simp only [addTagCounts]
    rw [mapGet_foldl_bumpTag f.tags t c hf]
    by_cases hft : t ∈ f.tags <;>
      by_cases hk : fs.countP (fun f2 => decide (t ∈ f2.tags)) = 0 <;>
      (simp [hft, hk]; try omega)

/-- A small file collection for concrete checks of the tag counter. -/
def demoFiles : List ClientFile :=
  [⟨"f1", ["a", "b"]⟩, ⟨"f2", ["a"]⟩, ⟨"f3", ["c", "a"]⟩]

/-- Claim C8: the counter of `countFileTags` maps a tag to n exactly when
n is at least one and n files of the collection carry the tag (absent tags
have no entry), and `sortedTags` lists exactly the counter keys in
non-increasing order of their counts. -/
theorem C8_countFileTags_correct (files : List ClientFile)
    (h : ∀ f ∈ files, f.tags.Nodup) :
    (∀ t n, mapGet (countFileTagsCounter files) t = some n ↔
      (n = files.countP (fun f => decide (t ∈ f.tags)) ∧ 1 ≤ n)) ∧
    ((countFileTagsCounter files).mergeSort countLe).Pairwise
      (fun a b => b.2 ≤ a.2) ∧
    (countFileTagsSorted files).Perm
      ((countFileTagsCounter files).map (fun p => p.1)) := by
  refine ⟨?_, ?_, ?_⟩
  · intro t n
    have hm := mapGet_foldl_addTagCounts files t [] h
    rw [countFileTagsCounter, hm]
    by_cases hk : files.countP (fun f => decide (t ∈ f.tags)) = 0
    · simp [hk, mapGet]
    · rw [if_neg hk]
      simp [mapGet]
      omega
  · have hs : ((countFileTagsCounter files).mergeSort countLe).Pairwise
        (fun a b => countLe a b = true) :=
      @List.sorted_mergeSort (String × Nat) countLe
        (fun a b c hab hbc =>
          decide_eq_true (le_trans (of_decide_eq_true hbc) (of_decide_eq_true hab)))
        (fun a b => by
          simp only [countLe, Bool.or_eq_true, decide_eq_true_eq]
          exact Nat.le_total b.2 a.2)
        (countFileTagsCounter files)
    exact hs.imp (fun hab => of_decide_eq_true hab)
  · exact List.Perm.map _ (List.mergeSort_perm _ _)

/-- Concrete instance of C8 on the demonstration collection. -/
theorem C8_countFileTags_correct_witness :
    (mapGet (countFileTagsCounter demoFiles) "a" = some 3 ↔
      (3 = demoFiles.countP (fun f => decide ("a" ∈ f.tags)) ∧ 1 ≤ 3)) ∧
    ((countFileTagsCounter demoFiles).mergeSort countLe).Pairwise
      (fun a b => b.2 ≤ a.2) ∧
    (countFileTagsSorted demoFiles).Perm
      ((countFileTagsCounter demoFiles).map (fun p => p.1)) :=
  ⟨(C8_countFileTags_correct demoFiles (by decide)).1 "a" 3,
   (C8_countFileTags_correct demoFiles (by decide)).2.1,
   (C8_countFileTags_correct demoFiles (by decide)).2.2⟩
